import Mathlib

/-!
Verification of the real-time connection management core of the `so68/utils`
repository: the server-side `OptimizedHub` (`src/socket/handler`, whose
implementation lives in the second half of `src/socket/client/websocket.go`),
the `RateLimiter` of `src/socket/handler/handler.go`, and the reconnecting
client `Websocket` of `src/socket/client`.

The Go code is embedded shallowly: the connection map (`map[string]*Connection`)
becomes an association list with Go-map insert/delete/lookup semantics, atomic
counters become `Int` fields threaded through explicit state, channels become
bounded lists, and `time.Ticker` gates become an explicit arithmetic model of
tick generation.  All definitions are executable so that concrete scenarios can
be settled by `decide` / `rfl`.
-/

namespace WS

/-- A message payload: a byte sequence, modelled as a list of byte values. -/
abbrev Payload := List Nat

/-- Mirrors `handler.Connection` (src/socket/handler/types.go).  The
`*websocket.Conn` transport handle is opaque to the hub, so it is modelled as
an `Option Nat` handle; `none` models a nil `*websocket.Conn` (the code guards
several operations with `conn.Conn != nil`).  `Metadata` values are opaque to
the hub as well and are modelled as strings.  Times are abstract instants. -/
structure Connection where
  id : String
  transport : Option Nat
  metadata : List (String × String)
  created : Nat
  lastSeen : Nat
deriving Repr, DecidableEq

/-- Go-map insert `m[k] = v`: replaces the entry when the key is present,
otherwise appends a new entry. -/
def mapInsert (conns : List Connection) (c : Connection) : List Connection :=
  if conns.any (fun x => x.id == c.id) then
    conns.map (fun x => if x.id == c.id then c else x)
  else
    conns ++ [c]

/-- Go-map delete `delete(m, k)`: removes the entry for the key (a no-op when
the key is absent). -/
def mapDelete (conns : List Connection) (connID : String) : List Connection :=
  conns.filter (fun x => !(x.id == connID))

/-- Go-map lookup `m[k]` returning the entry when present. -/
def mapLookup (conns : List Connection) (connID : String) : Option Connection :=
  conns.find? (fun x => x.id == connID)

/-- Mirrors `handler.HubConfig` (src/socket/handler/types.go).  `MaxConnections`
is a Go `int` (0 means unlimited), durations are abstract instants. -/
structure HubConfig where
  maxConnections : Int
  broadcastBuffer : Int
  cleanupInterval : Nat
  connectionTimeout : Nat
  enableStats : Bool
deriving Repr, DecidableEq

/-- Mirrors `handler.DefaultHubConfig`. -/
def defaultHubConfig : HubConfig :=
  { maxConnections := 1000
    broadcastBuffer := 1000
    cleanupInterval := 300
    connectionTimeout := 30
    enableStats := true }

/-- Mirrors `handler.HubStats` (the atomically updated counters; `int64` in Go,
hence `Int` here — decrements can drive a counter below zero). -/
structure HubStats where
  totalConnections : Int
  activeConnections : Int
  totalMessages : Int
  broadcastMessages : Int
  startTime : Nat
  lastCleanup : Nat
deriving Repr, DecidableEq

/-- Mirrors `handler.OptimizedHub`: the connection map, the configuration, the
stats counters and the buffered broadcast channel (`chan []byte` of capacity
1000), modelled as an explicit bounded FIFO list. -/
structure OptimizedHub where
  connections : List Connection
  config : HubConfig
  stats : HubStats
  broadcastQueue : List Payload
  broadcastCapacity : Nat
deriving Repr, DecidableEq

/-- Mirrors `handler.NewOptimizedHub`: empty map, default config, zeroed stats,
broadcast channel of capacity 1000. -/
def newOptimizedHub : OptimizedHub :=
  { connections := []
    config := defaultHubConfig
    stats := { totalConnections := 0, activeConnections := 0, totalMessages := 0,
               broadcastMessages := 0, startTime := 0, lastCleanup := 0 }
    broadcastQueue := []
    broadcastCapacity := 1000 }

/-- The only error `OptimizedAddConnection` can return: the
"maximum connections limit reached" error (the spec's `CapacityExceeded`).
Notably there is no `DuplicateID` variant — the source never produces one. -/
inductive AddError
  | capacityExceeded
deriving Repr, DecidableEq

/-- Mirrors `(h *OptimizedHub) OptimizedAddConnection` (websocket.go): when
`MaxConnections > 0` and `len(connections) >= MaxConnections` it fails with the
capacity error; otherwise it stores the new `Connection` under `connID` (a Go
map assignment, which overwrites any existing entry for `connID`), and when
stats are enabled increments `TotalConnections` and `ActiveConnections`. -/
def optimizedAddConnection (h : OptimizedHub) (connID : String)
    (wsConn : Option Nat) (metadata : List (String × String)) (now : Nat) :
    OptimizedHub × Option AddError :=
  if h.config.maxConnections > 0 ∧
      (h.connections.length : Int) ≥ h.config.maxConnections then
    (h, some AddError.capacityExceeded)
  else
    let conn : Connection :=
      { id := connID, transport := wsConn, metadata := metadata,
        created := now, lastSeen := now }
    let h1 := { h with connections := mapInsert h.connections conn }
    let h2 :=
      if h1.config.enableStats then
        { h1 with stats := { h1.stats with
            totalConnections := h1.stats.totalConnections + 1,
            activeConnections := h1.stats.activeConnections + 1 } }
      else h1
    (h2, none)

/-- Mirrors the deferred cleanup of `optimizedListenConnection`: when a
connection's dispatch loop exits it deletes its own entry from the map and,
when stats are enabled, decrements `ActiveConnections` (unconditionally — even
if the entry was already gone). -/
def optimizedListenCleanup (h : OptimizedHub) (connID : String) : OptimizedHub :=
  let h1 := { h with connections := mapDelete h.connections connID }
  if h1.config.enableStats then
    { h1 with stats := { h1.stats with
        activeConnections := h1.stats.activeConnections - 1 } }
  else h1

/-- Mirrors `(h *OptimizedHub) processCleanupBatch`: for each id in the batch
it looks the connection up (`h.connections[connID]`), closes its transport when
non-nil, deletes the entry and decrements `ActiveConnections`.  When the id is
absent the Go lookup yields a nil `*Connection` and `conn.Conn` dereferences
nil — a runtime panic, modelled as `none`. -/
def processCleanupBatch (h : OptimizedHub) : List String → Option OptimizedHub
  | [] => some h
  | connID :: rest =>
    match mapLookup h.connections connID with
    | none => none
    | some _ =>
      let h1 := { h with connections := mapDelete h.connections connID }
      let h2 :=
        if h1.config.enableStats then
          { h1 with stats := { h1.stats with
              activeConnections := h1.stats.activeConnections - 1 } }
        else h1
      processCleanupBatch h2 rest

/-- `GetConnectionCount` for the hub: the size of the connection map. -/
def getConnectionCount (h : OptimizedHub) : Nat :=
  h.connections.length

/-- Mirrors `(h *OptimizedHub) OptimizedBroadcast`: a non-blocking `select` -
send the message into the buffered broadcast channel when it has free capacity,
otherwise take the `default` branch, log a warning and drop the message.  The
returned `Bool` is `true` exactly when the message was dropped (the warning
path). -/
def optimizedBroadcast (h : OptimizedHub) (message : Payload) :
    OptimizedHub × Bool :=
  if h.broadcastQueue.length < h.broadcastCapacity then
    ({ h with broadcastQueue := h.broadcastQueue ++ [message] }, false)
  else
    (h, true)

/-- The `filter == nil || filter(conn)` test of `OptimizedBroadcastWithFilter`:
a nil filter keeps every connection. -/
def applyFilter (filter : Option (Connection → Bool)) (c : Connection) : Bool :=
  match filter with
  | none => true
  | some f => f c

/-- The snapshot phase of `OptimizedBroadcastWithFilter`: under the read lock,
skip every connection whose id is in the exclude map and keep those accepted by
the filter. -/
def broadcastTargets (conns : List Connection)
    (filter : Option (Connection → Bool)) (exclude : List String) :
    List Connection :=
  conns.filter (fun c => !(exclude.contains c.id) && applyFilter filter c)

/-- Mirrors `(h *OptimizedHub) OptimizedBroadcastWithFilter`: computes the
target snapshot, then the worker pool performs one `WriteMessage` per target
whose transport is non-nil (the `if conn.Conn != nil` guard), and finally
`BroadcastMessages` is incremented when stats are enabled.  The second
component lists the performed sends as `(connection id, payload)` pairs, one
per attempted `WriteMessage`. -/
def optimizedBroadcastWithFilter (h : OptimizedHub) (message : Payload)
    (filter : Option (Connection → Bool)) (exclude : List String) :
    OptimizedHub × List (String × Payload) :=
  let targets := broadcastTargets h.connections filter exclude
  let sends := (targets.filter (fun c => c.transport.isSome)).map
    (fun c => (c.id, message))
  let h1 :=
    if h.config.enableStats then
      { h with stats := { h.stats with
          broadcastMessages := h.stats.broadcastMessages + 1 } }
    else h
  (h1, sends)

/-- Updating `conn.LastSeen = time.Now()` under the connection's own lock: the
`Connection` is a pointer into the map, so the map entry itself changes. -/
def touchLastSeen (h : OptimizedHub) (connID : String) (now : Nat) :
    OptimizedHub :=
  { h with connections :=
      h.connections.map fun x =>
        if x.id == connID then { x with lastSeen := now } else x }

/-- Outcome of one invocation of an application message handler: it either
returns normally or panics. -/
inductive HandlerOutcome
  | normal
  | panics
deriving Repr, DecidableEq

/-- Result of the wrapper goroutine `go func() { defer recover(); handler(msg) }()`
used by the client's listen loop: a panic is recovered inside the goroutine and
never propagates. -/
inductive TaskResult
  | completed
  | recovered
deriving Repr, DecidableEq

/-- The recover wrapper: a normal handler completes, a panicking handler is
caught by `recover()` and converted into a logged/metered recovery. -/
def recoverWrap (o : HandlerOutcome) : TaskResult :=
  match o with
  | HandlerOutcome.normal => TaskResult.completed
  | HandlerOutcome.panics => TaskResult.recovered

/-- Mirrors the text-frame branch of `(h *OptimizedHub) optimizedListenConnection`:
update `LastSeen`, then call `h.messageHandler(conn.ID, message)` directly —
inline, with no `recover` — and finally increment `TotalMessages` when stats
are enabled.  A panicking handler therefore unwinds through the loop: the
deferred cleanup removes the connection and the loop is dead.  The returned
`Bool` is `true` exactly when the dispatch loop keeps running afterwards. -/
def optimizedDispatchTextFrame (h : OptimizedHub) (connID : String)
    (outcome : HandlerOutcome) (now : Nat) : OptimizedHub × Bool :=
  let h1 := touchLastSeen h connID now
  match outcome with
  | HandlerOutcome.panics => (optimizedListenCleanup h1 connID, false)
  | HandlerOutcome.normal =>
    let h2 :=
      if h1.config.enableStats then
        { h1 with stats := { h1.stats with
            totalMessages := h1.stats.totalMessages + 1 } }
      else h1
    (h2, true)

/-- State of the client's listen loop (`Websocket.listenLoop`): the atomic
message counter, the `websocket.handler.panic` metric and whether the loop is
still alive. -/
structure ClientListenState where
  messageCount : Int
  panicMetric : Nat
  loopAlive : Bool
deriving Repr, DecidableEq

/-- Mirrors the body of the client's `listenLoop` for one received message:
the payload is counted atomically, the handler is dispatched on its own
goroutine through the recover wrapper (incrementing the panic metric when it
panics), and the loop itself proceeds to the next read regardless of the
handler's fate. -/
def clientListenStep (s : ClientListenState) (outcome : HandlerOutcome) :
    ClientListenState :=
  { messageCount := s.messageCount + 1
    panicMetric := s.panicMetric +
      (match recoverWrap outcome with
       | TaskResult.recovered => 1
       | TaskResult.completed => 0)
    loopAlive := s.loopAlive }

/-- Result of one dispatch-loop step of the baseline hub for a single data
frame. -/
structure DispatchResult where
  conn : Connection
  delivered : Option (String × Payload)
  oversizedDropped : Bool
  loopContinues : Bool
deriving Repr, DecidableEq

/-- Modelled from the spec: the baseline `Hub`'s per-connection dispatch-loop
body for one data frame (`Hub.listenConnection` is not under src/ — only
`hub_test.go` exercises it and the Optimized variant, which has no
`MaxMessageSize` configuration at all, is present).  Spec section 4.2: "if
`MaxMessageSize > 0` and payload length exceeds it, the frame is silently
dropped (counted, not delivered) — oversized frames are a policy violation,
not a fatal error.  Otherwise: update `lastSeen`, invoke the configured
message handler with `(id, payload)`". -/
def dispatchDataFrame (maxMessageSize : Nat) (now : Nat) (c : Connection)
    (payload : Payload) : DispatchResult :=
  if maxMessageSize > 0 ∧ payload.length > maxMessageSize then
    { conn := c, delivered := none, oversizedDropped := true,
      loopContinues := true }
  else
    { conn := { c with lastSeen := now }, delivered := some (c.id, payload),
      oversizedDropped := false, loopContinues := true }

/-- State of one `time.Ticker` gate as installed by `RateLimiter.SetLimit`.
A Go ticker created at `start` with period `interval` delivers a tick at
`start + k * interval` for every `k ≥ 1` into a channel of capacity one;
ticks arriving while the channel is occupied are discarded.  The channel's
content is therefore determined by `emptiedAt`, the instant of the last
successful read (initially `start`): a tick is pending at time `t` iff some
tick instant lies in the half-open window `(emptiedAt, t]`. -/
structure TickerGate where
  start : Nat
  interval : Nat
  emptiedAt : Nat
deriving Repr, DecidableEq

/-- The first tick instant strictly after `emptiedAt` (for a gate with
`start ≤ emptiedAt` and a positive interval). -/
def nextTick (g : TickerGate) : Nat :=
  g.start + g.interval * ((g.emptiedAt - g.start) / g.interval + 1)

/-- The non-blocking `select` on `ticker.C` performed by `RateLimiter.Allow`:
when a tick is pending it is consumed (the channel empties now) and the call
returns `true`; otherwise the `default` branch returns `false` at once. -/
def tickerAllow (g : TickerGate) (now : Nat) : Bool × TickerGate :=
  if nextTick g ≤ now then
    (true, { g with emptiedAt := now })
  else
    (false, g)

/-- Mirrors `handler.RateLimiter`: the map from connection id to its ticker. -/
structure RateLimiter where
  limits : List (String × TickerGate)
deriving Repr, DecidableEq

/-- Mirrors `(rl *RateLimiter) SetLimit`: stop and discard any previous ticker
for the id and install a fresh one created `now` (its first tick is due one
full interval later, and its channel starts empty). -/
def setLimit (rl : RateLimiter) (connID : String) (interval : Nat) (now : Nat) :
    RateLimiter :=
  { limits := rl.limits.filter (fun p => !(p.1 == connID)) ++
      [(connID, { start := now, interval := interval, emptiedAt := now })] }

/-- Replaces the ticker stored under `connID` (the in-place mutation of the
ticker's channel that consuming a tick performs). -/
def updateGate (rl : RateLimiter) (connID : String) (g : TickerGate) :
    RateLimiter :=
  { limits := rl.limits.map (fun p => if p.1 == connID then (p.1, g) else p) }

/-- Mirrors `(rl *RateLimiter) Allow`: look the ticker up; with no ticker
installed the call is unconditionally `true`; otherwise drain the ticker
channel without blocking. -/
def allow (rl : RateLimiter) (connID : String) (now : Nat) :
    Bool × RateLimiter :=
  match rl.limits.find? (fun p => p.1 == connID) with
  | none => (true, rl)
  | some (_, g) =>
    let r := tickerAllow g now
    (r.1, if r.1 then updateGate rl connID r.2 else rl)

/-- A sequence of `Allow` calls for one id at the given instants, counting how
many of them returned `true`. -/
def allowTrace (rl : RateLimiter) (connID : String) (times : List Nat) :
    Nat × RateLimiter :=
  times.foldl
    (fun acc t =>
      let r := allow acc.2 connID t
      (acc.1 + (if r.1 then 1 else 0), r.2))
    (0, rl)

/-- Mirrors `(rl *RateLimiter) RemoveLimit`: stop and discard the gate. -/
def removeLimit (rl : RateLimiter) (connID : String) : RateLimiter :=
  { limits := rl.limits.filter (fun p => !(p.1 == connID)) }

/-- Observable state of the reconnecting client (`client.Websocket`) relevant
to the retry machinery: the `retryCount` field behind `GetRetryCount`, whether
the "permanently closed after retries" branch of `listenLoop`'s cleanup was
taken, and the cumulative number of internal `connect` attempts performed. -/
structure ClientState where
  retryCount : Nat
  permanentlyClosed : Bool
  attempts : Nat
deriving Repr, DecidableEq

/-- Mirrors `(m *Websocket) shouldRetry`:
`MaxRetries == 0 || retryCount < MaxRetries`. -/
def shouldRetry (maxRetries retryCount : Nat) : Bool :=
  maxRetries == 0 || retryCount < maxRetries

/-- Mirrors `(m *Websocket) connect` restricted to the retry bookkeeping: a
failed dial increments `retryCount` and reports failure; a successful dial
installs the new transport and resets `retryCount` to 0. -/
def connectAttempt (dialOk : Bool) (s : ClientState) : ClientState × Bool :=
  if dialOk then
    ({ s with retryCount := 0, attempts := s.attempts + 1 }, true)
  else
    ({ s with retryCount := s.retryCount + 1, attempts := s.attempts + 1 },
     false)

/-- Mirrors the deferred cleanup of `(m *Websocket) listenLoop`, entered each
time the listen loop exits on a read error.  `dials` lists the outcomes the
network would give to successive dial attempts (`false` throughout for an
unreachable target).  If `shouldRetry()` holds, one delayed `connect` is made:
on success the listen and ping loops restart and the next read error re-enters
this cleanup with the remaining outcomes; on failure the reconnect goroutine
merely logs "Reconnect failed" and exits — no further attempt is scheduled.
If `shouldRetry()` fails, the client logs "permanently closed after retries". -/
def reconnectRun (maxRetries : Nat) (dials : List Bool) (s : ClientState) :
    ClientState :=
  if shouldRetry maxRetries s.retryCount then
    match dials with
    | [] => s
    | ok :: rest =>
      let r := connectAttempt ok s
      if r.2 then reconnectRun maxRetries rest r.1 else r.1
  else
    { s with permanentlyClosed := true }

/-- One sequential Hub operation: an `OptimizedAddConnection` call, a dispatch
loop exiting (running its deferred cleanup) and a cleanup batch
(`processCleanupBatch`). -/
inductive HubOp
  | add (connID : String) (wsConn : Option Nat)
        (metadata : List (String × String)) (now : Nat)
  | disconnect (connID : String)
  | cleanup (toRemove : List String)
deriving Repr

/-- Applies one Hub operation; `none` models the nil-dereference panic of
`processCleanupBatch` on an absent id. -/
def applyHubOp (h : OptimizedHub) : HubOp → Option OptimizedHub
  | HubOp.add connID wsConn metadata now =>
    some (optimizedAddConnection h connID wsConn metadata now).1
  | HubOp.disconnect connID => some (optimizedListenCleanup h connID)
  | HubOp.cleanup toRemove => processCleanupBatch h toRemove

/-- Runs a sequence of Hub operations. -/
def runHubOps (h : OptimizedHub) : List HubOp → Option OptimizedHub
  | [] => some h
  | op :: ops =>
    match applyHubOp h op with
    | none => none
    | some h1 => runHubOps h1 ops

/-- The operations whose effect on the `ActiveConnections` counter matches
their effect on the map: an add whose id is not yet present, a disconnect of a
present connection, and a cleanup batch of distinct, present ids. -/
def validOp (h : OptimizedHub) : HubOp → Bool
  | HubOp.add connID _ _ _ => (mapLookup h.connections connID).isNone
  | HubOp.disconnect connID => (mapLookup h.connections connID).isSome
  | HubOp.cleanup toRemove =>
    decide toRemove.Nodup &&
      toRemove.all (fun connID => (mapLookup h.connections connID).isSome)

/-- A sequence of operations each valid in the state it runs in. -/
def validOps (h : OptimizedHub) : List HubOp → Bool
  | [] => true
  | op :: ops =>
    validOp h op &&
      match applyHubOp h op with
      | none => false
      | some h1 => validOps h1 ops

/-! Concrete fixtures used by the scenario conjuncts, counterexamples and
witnesses below. -/

/-- A hub that already holds a connection with id "a" (transport handle 1). -/
def dupHub : OptimizedHub :=
  { newOptimizedHub with
    connections :=
      [{ id := "a", transport := some 1, metadata := [], created := 0,
         lastSeen := 0 }]
    stats := { newOptimizedHub.stats with
      totalConnections := 1, activeConnections := 1 } }

/-- A fresh hub configured with `MaxConnections = 2`. -/
def hub2 : OptimizedHub :=
  { newOptimizedHub with
    config := { defaultHubConfig with maxConnections := 2 } }

/-- A hub whose broadcast queue is at capacity. -/
def fullHub : OptimizedHub :=
  { newOptimizedHub with broadcastQueue := [[1]], broadcastCapacity := 1 }

/-- Three live connections used by the broadcast witness. -/
def connA : Connection :=
  { id := "a", transport := some 1, metadata := [], created := 0, lastSeen := 0 }

/-- Second broadcast-witness connection. -/
def connB : Connection :=
  { id := "b", transport := some 2, metadata := [], created := 0, lastSeen := 0 }

/-- Third broadcast-witness connection. -/
def connC : Connection :=
  { id := "c", transport := some 3, metadata := [], created := 0, lastSeen := 0 }

/-- A hub holding the three witness connections. -/
def hub3 : OptimizedHub :=
  { newOptimizedHub with connections := [connA, connB, connC] }

/-- A limiter with a gate of interval 2 installed for id "a" at time 0. -/
def rlFix : RateLimiter := setLimit { limits := [] } "a" 2 0

/-- Operation trace for the capacity witness: fill a `MaxConnections = 2` hub,
overflow it, then free a slot. -/
def opsCap : List HubOp :=
  [HubOp.add "a" (some 1) [] 0, HubOp.add "b" (some 2) [] 0,
   HubOp.add "c" (some 3) [] 0, HubOp.disconnect "a"]

/-- Operation trace for the stats-invariant witness: two distinct adds, one
dispatch-loop exit, one cleanup batch. -/
def opsStats : List HubOp :=
  [HubOp.add "a" (some 1) [] 0, HubOp.add "b" (some 2) [] 0,
   HubOp.disconnect "a", HubOp.cleanup ["b"]]

/-- First scenario state: hub2 after adding "a". -/
def capS1 : OptimizedHub := (optimizedAddConnection hub2 "a" (some 1) [] 0).1

/-- Second scenario state: after adding "b" as well (count 2 = capacity). -/
def capS2 : OptimizedHub := (optimizedAddConnection capS1 "b" (some 2) [] 0).1

/-- Third scenario state: after connection "a" disconnected (count 1). -/
def capS3 : OptimizedHub := optimizedListenCleanup capS2 "a"

/-- Trace that fills hub2 to capacity. -/
def opsFill : List HubOp :=
  [HubOp.add "a" (some 1) [] 0, HubOp.add "b" (some 2) [] 0]

/-- The state reached by `opsFill` on hub2 (count 2). -/
def capFull : OptimizedHub := (runHubOps hub2 opsFill).getD newOptimizedHub

/-- The state reached by `opsCap` on hub2 (count 1). -/
def capFinal : OptimizedHub := (runHubOps hub2 opsCap).getD newOptimizedHub

/-! Helper lemmas shared by several developments below. -/

/-- The stats wrapper inside `optimizedListenCleanup` leaves the map alone. -/
theorem optimizedListenCleanup_connections (h : OptimizedHub) (connID : String) :
    (optimizedListenCleanup h connID).connections =
      mapDelete h.connections connID := by
  unfold optimizedListenCleanup
  by_cases hs : h.config.enableStats = true <;> simp [hs]


/-- The outcome of `OptimizedAddConnection`: the capacity error exactly when
`MaxConnections > 0` and the map is already at (or beyond) capacity. -/
theorem optimizedAddConnection_snd (h : OptimizedHub) (connID : String)
    (wsConn : Option Nat) (metadata : List (String × String)) (now : Nat) :
    (optimizedAddConnection h connID wsConn metadata now).2 =
      if h.config.maxConnections > 0 ∧
          (h.connections.length : Int) ≥ h.config.maxConnections then
        some AddError.capacityExceeded
      else none := by
  by_cases hcap : h.config.maxConnections > 0 ∧
      (h.connections.length : Int) ≥ h.config.maxConnections
  · simp only [optimizedAddConnection, if_pos hcap]
  · simp only [optimizedAddConnection, if_neg hcap]

/-- The map after `OptimizedAddConnection`: unchanged on the capacity error,
otherwise the Go-map insertion of the freshly built connection. -/
theorem optimizedAddConnection_connections (h : OptimizedHub) (connID : String)
    (wsConn : Option Nat) (metadata : List (String × String)) (now : Nat) :
    (optimizedAddConnection h connID wsConn metadata now).1.connections =
      if h.config.maxConnections > 0 ∧
          (h.connections.length : Int) ≥ h.config.maxConnections then
        h.connections
      else
        mapInsert h.connections
          { id := connID, transport := wsConn, metadata := metadata,
            created := now, lastSeen := now } := by
  by_cases hcap : h.config.maxConnections > 0 ∧
      (h.connections.length : Int) ≥ h.config.maxConnections
  · simp only [optimizedAddConnection, if_pos hcap]
  · simp only [optimizedAddConnection, if_neg hcap]
    by_cases hs : h.config.enableStats = true <;> simp [hs]

/-- `OptimizedAddConnection` never touches the configuration. -/
theorem optimizedAddConnection_config (h : OptimizedHub) (connID : String)
    (wsConn : Option Nat) (metadata : List (String × String)) (now : Nat) :
    (optimizedAddConnection h connID wsConn metadata now).1.config = h.config := by
  by_cases hcap : h.config.maxConnections > 0 ∧
      (h.connections.length : Int) ≥ h.config.maxConnections
  · simp only [optimizedAddConnection, if_pos hcap]
  · simp only [optimizedAddConnection, if_neg hcap]
    by_cases hs : h.config.enableStats = true <;> simp [hs]

/-- The dispatch-loop cleanup never touches the configuration. -/
theorem optimizedListenCleanup_config (h : OptimizedHub) (connID : String) :
    (optimizedListenCleanup h connID).config = h.config := by
  unfold optimizedListenCleanup
  by_cases hs : h.config.enableStats = true <;> simp [hs]

/-- Inserting into the map grows it by at most one entry. -/
theorem mapInsert_length_le (conns : List Connection) (c : Connection) :
    (mapInsert conns c).length ≤ conns.length + 1 := by
  unfold mapInsert
  split
  · rw [List.length_map]
    omega
  · rw [List.length_append]
    simp

/-- Deleting from the map never grows it. -/
theorem mapDelete_length_le (conns : List Connection) (connID : String) :
    (mapDelete conns connID).length ≤ conns.length :=
  List.length_filter_le _ _

/-- A successful cleanup batch preserves the configuration and never grows the
map. -/
theorem processCleanupBatch_config_length (toRemove : List String) :
    ∀ (h h' : OptimizedHub), processCleanupBatch h toRemove = some h' →
      h'.config = h.config ∧ h'.connections.length ≤ h.connections.length := by
  induction toRemove with
  | nil =>
    intro h h' hp
    cases hp
    exact ⟨rfl, le_refl _⟩
  | cons connID rest ih =>
    intro h h' hp
    unfold processCleanupBatch at hp
    cases hlk : mapLookup h.connections connID with
    | none => rw [hlk] at hp; cases hp
    | some c =>
      rw [hlk] at hp
      simp only at hp
      by_cases hs : h.config.enableStats = true
      · rw [if_pos hs] at hp
        rcases ih _ _ hp with ⟨hc, hl⟩
        exact ⟨hc, le_trans hl (mapDelete_length_le _ _)⟩
      · rw [if_neg hs] at hp
        rcases ih _ _ hp with ⟨hc, hl⟩
        exact ⟨hc, le_trans hl (mapDelete_length_le _ _)⟩

/-- Any successful operation sequence preserves the configuration and, when a
positive `MaxConnections` bound holds initially, keeps the map within it. -/
theorem runHubOps_config_length (ops : List HubOp) :
    ∀ (h h' : OptimizedHub) (M : Int), 0 < M →
      h.config.maxConnections = M → (h.connections.length : Int) ≤ M →
      runHubOps h ops = some h' →
      h'.config = h.config ∧ (h'.connections.length : Int) ≤ M := by
  induction ops with
  | nil =>
    intro h h' M _ _ hlen hr
    cases hr
    exact ⟨rfl, hlen⟩
  | cons op rest ih =>
    intro h h' M hM hcfg hlen hr
    unfold runHubOps at hr
    cases happ : applyHubOp h op with
    | none => rw [happ] at hr; cases hr
    | some h1 =>
      rw [happ] at hr
      simp only at hr
      have hstep : h1.config = h.config ∧ (h1.connections.length : Int) ≤ M := by
        cases op with
        | add connID wsConn md now =>
          cases happ
          refine ⟨optimizedAddConnection_config h connID wsConn md now, ?_⟩
          rw [optimizedAddConnection_connections]
          by_cases hcap : h.config.maxConnections > 0 ∧
              (h.connections.length : Int) ≥ h.config.maxConnections
          · rw [if_pos hcap]
            exact hlen
          · rw [if_neg hcap]
            have hlt : (h.connections.length : Int) < M := by
              rcases not_and_or.mp hcap with hc | hc
              · exact absurd (hcfg ▸ hM) hc
              · have := lt_of_not_ge hc
                rwa [hcfg] at this
            have := mapInsert_length_le h.connections
              { id := connID, transport := wsConn, metadata := md,
                created := now, lastSeen := now }
            omega
        | disconnect connID =>
          cases happ
          refine ⟨optimizedListenCleanup_config h connID, ?_⟩
          rw [optimizedListenCleanup_connections]
          have := mapDelete_length_le h.connections connID
          omega
        | cleanup toRemove =>
          have hp : processCleanupBatch h toRemove = some h1 := happ
          rcases processCleanupBatch_config_length toRemove h h1 hp with ⟨hc, hl⟩
          exact ⟨hc, by omega⟩
      rcases hstep with ⟨hc1, hl1⟩
      rcases ih h1 h' M hM (by rw [hc1, hcfg]) hl1 hr with ⟨hc2, hl2⟩
      exact ⟨by rw [hc2, hc1], hl2⟩

/-- Deleting an id removes every entry for it: the subsequent lookup fails. -/
theorem mapLookup_mapDelete_self (conns : List Connection) (connID : String) :
    mapLookup (mapDelete conns connID) connID = none := by
  unfold mapLookup mapDelete
  rw [List.find?_eq_none]
  intro x hx
  rcases List.mem_filter.mp hx with ⟨-, hpx⟩
  simpa using hpx

/-- `shouldRetry` always holds when the retry counter is zero. -/
theorem shouldRetry_zero (maxRetries : Nat) : shouldRetry maxRetries 0 = true := by
  unfold shouldRetry
  cases maxRetries <;> simp

/-- After `SetLimit`, the lookup performed by `Allow` finds exactly the freshly
installed gate. -/
theorem find?_setLimit (rl : RateLimiter) (connID : String) (d now : Nat) :
    (setLimit rl connID d now).limits.find? (fun p => p.1 == connID) =
      some (connID, { start := now, interval := d, emptiedAt := now }) := by
  unfold setLimit
  rw [List.find?_append]
  have h1 : (rl.limits.filter fun p => !(p.1 == connID)).find?
      (fun p => p.1 == connID) = none := by
    rw [List.find?_eq_none]
    intro x hx
    rcases List.mem_filter.mp hx with ⟨-, hp⟩
    simpa using hp
  rw [h1]
  simp [List.find?]

/-- Replacing the gate stored under an id is visible to the next lookup. -/
theorem find?_map_update (l : List (String × TickerGate)) (connID : String)
    (g0 g : TickerGate)
    (h : l.find? (fun p => p.1 == connID) = some (connID, g0)) :
    (l.map fun p => if p.1 == connID then (p.1, g) else p).find?
      (fun p => p.1 == connID) = some (connID, g) := by
  induction l with
  | nil => simp [List.find?] at h
  | cons q tl ih =>
    rw [List.map_cons]
    by_cases hq : (q.1 == connID) = true
    · have hq1 : q.1 = connID := by simpa using hq
      rw [if_pos hq, List.find?_cons_of_pos _ (by simpa using hq), hq1]
    · rw [if_neg hq, List.find?_cons_of_neg _ (by simpa using hq)]
      rw [List.find?_cons_of_neg _ (by simpa using hq)] at h
      exact ih h

/-- The gate lookup after `updateGate`, at the limiter level. -/
theorem find?_updateGate (rl : RateLimiter) (connID : String)
    (g0 g : TickerGate)
    (h : rl.limits.find? (fun p => p.1 == connID) = some (connID, g0)) :
    (updateGate rl connID g).limits.find? (fun p => p.1 == connID) =
      some (connID, g) :=
  find?_map_update rl.limits connID g0 g h

/-- The boolean produced by the non-blocking tick consumption. -/
theorem tickerAllow_fst (g : TickerGate) (t : Nat) :
    (tickerAllow g t).1 = decide (nextTick g ≤ t) := by
  unfold tickerAllow
  split <;> simp [*]

/-- A successful tick consumption empties the channel at the call instant. -/
theorem tickerAllow_snd_of_le (g : TickerGate) (t : Nat) (h : nextTick g ≤ t) :
    (tickerAllow g t).2 = { g with emptiedAt := t } := by
  unfold tickerAllow
  rw [if_pos h]

/-- `Allow` on an id with an installed gate consults exactly that gate. -/
theorem allow_fst_of_find? (rl : RateLimiter) (connID : String)
    (g : TickerGate) (now : Nat)
    (h : rl.limits.find? (fun p => p.1 == connID) = some (connID, g)) :
    (allow rl connID now).1 = (tickerAllow g now).1 := by
  unfold allow
  rw [h]

/-- A successful `Allow` writes the drained gate back; a failed one leaves the
limiter untouched. -/
theorem allow_snd_of_find? (rl : RateLimiter) (connID : String)
    (g : TickerGate) (now : Nat)
    (h : rl.limits.find? (fun p => p.1 == connID) = some (connID, g)) :
    (allow rl connID now).2 =
      if (tickerAllow g now).1 then updateGate rl connID (tickerAllow g now).2
      else rl := by
  unfold allow
  rw [h]

/-- The fresh gate installed by `SetLimit` has its first tick due one full
interval after installation. -/
theorem nextTick_fresh (s d : Nat) :
    nextTick { start := s, interval := d, emptiedAt := s } = s + d := by
  unfold nextTick
  simp

/-- The first tick after a consumption at instant `e` is strictly later than
`e` (positive interval, `start ≤ e`). -/
theorem lt_nextTick (s d e : Nat) (hd : 0 < d) (hse : s ≤ e) :
    e < nextTick { start := s, interval := d, emptiedAt := e } := by
  unfold nextTick
  simp only
  have hdm := Nat.div_add_mod (e - s) d
  have hmlt : (e - s) % d < d := Nat.mod_lt _ hd
  rw [Nat.mul_succ]
  omega

/-- The first tick after a consumption at instant `e` is due within one
interval of `e` (`start ≤ e`). -/
theorem nextTick_le (s d e : Nat) (hse : s ≤ e) :
    nextTick { start := s, interval := d, emptiedAt := e } ≤ e + d := by
  unfold nextTick
  simp only
  have hdiv : (e - s) / d * d ≤ e - s := Nat.div_mul_le_self _ _
  rw [Nat.mul_succ, Nat.mul_comm]
  omega

/-- A consumed pending tick strictly advances the tick index: the whole
intervals elapsed up to the consumption instant exceed those elapsed up to the
previous channel drain. -/
theorem div_succ_le_of_nextTick_le (s d e t : Nat) (hd : 0 < d)
    (h : nextTick { start := s, interval := d, emptiedAt := e } ≤ t) :
    (e - s) / d + 1 ≤ (t - s) / d := by
  unfold nextTick at h
  simp only at h
  rw [Nat.le_div_iff_mul_le hd, Nat.mul_comm, Nat.mul_succ]
  rw [Nat.mul_succ] at h
  omega

/-- Counting bound for a sequence of `Allow` calls on a gated id: every
successful call consumes a distinct tick of the gate's ticker, so the number
of successes never exceeds the number of whole intervals elapsed since the
gate was installed. -/
theorem allow_count_le (connID : String) (times : List Nat) :
    ∀ (rl : RateLimiter) (g : TickerGate) (n T : Nat),
      rl.limits.find? (fun p => p.1 == connID) = some (connID, g) →
      0 < g.interval → g.start ≤ g.emptiedAt → g.emptiedAt ≤ T →
      (∀ t ∈ times, t ≤ T) →
      (times.foldl
          (fun acc t =>
            let r := allow acc.2 connID t
            (acc.1 + (if r.1 then 1 else 0), r.2)) (n, rl)).1 +
          (g.emptiedAt - g.start) / g.interval ≤
        n + (T - g.start) / g.interval := by
  induction times with
  | nil =>
    intro rl g n T _ _ _ heT _
    simp only [List.foldl_nil]
    have hmono : (g.emptiedAt - g.start) / g.interval ≤
        (T - g.start) / g.interval :=
      Nat.div_le_div_right (by omega)
    omega
  | cons t ts ih =>
    intro rl g n T hf hd hse heT hts
    have hfst := allow_fst_of_find? rl connID g t hf
    have hsnd := allow_snd_of_find? rl connID g t hf
    have hts' : ∀ u ∈ ts, u ≤ T := fun u hu => hts u (List.mem_cons_of_mem _ hu)
    rw [List.foldl_cons]
    by_cases hok : nextTick g ≤ t
    · have h1 : (allow rl connID t).1 = true := by
        rw [hfst, tickerAllow_fst]
        exact decide_eq_true hok
      have h2 : (allow rl connID t).2 =
          updateGate rl connID { g with emptiedAt := t } := by
        rw [hsnd, tickerAllow_snd_of_le g t hok, tickerAllow_fst,
          decide_eq_true hok]
        rfl
      have hf' : ((allow rl connID t).2).limits.find?
          (fun p => p.1 == connID) = some (connID, { g with emptiedAt := t }) := by
        rw [h2]
        exact find?_updateGate rl connID g _ hf
      have hkey : (g.emptiedAt - g.start) / g.interval + 1 ≤
          (t - g.start) / g.interval :=
        div_succ_le_of_nextTick_le g.start g.interval g.emptiedAt t hd hok
      have hst : g.emptiedAt < nextTick g :=
        lt_nextTick g.start g.interval g.emptiedAt hd hse
      have htT : t ≤ T := hts t (List.mem_cons_self _ _)
      have IH := ih (allow rl connID t).2 { g with emptiedAt := t } (n + 1) T
        hf' hd (by simp only; omega) (by simp only; omega) hts'
      simp only at IH
      simp only [h1, if_true]
      omega
    · have h1 : (allow rl connID t).1 = false := by
        rw [hfst, tickerAllow_fst]
        exact decide_eq_false hok
      have h2 : (allow rl connID t).2 = rl := by
        rw [hsnd, tickerAllow_fst, decide_eq_false hok]
        rfl
      have IH := ih rl g n T hf hd hse heT hts'
      simp only [h1, if_false, h2]
      simpa using IH

/-- The send list produced by `OptimizedBroadcastWithFilter`: one send per
target connection with a non-nil transport. -/
theorem optimizedBroadcastWithFilter_snd (h : OptimizedHub) (m : Payload)
    (filter : Option (Connection → Bool)) (exclude : List String) :
    (optimizedBroadcastWithFilter h m filter exclude).2 =
      ((broadcastTargets h.connections filter exclude).filter
        (fun c => c.transport.isSome)).map (fun c => (c.id, m)) := rfl

/-- In a duplicate-free list of strings, a member occurs exactly once. -/
theorem count_eq_one_of_nodup_mem (l : List String) (a : String)
    (hnd : l.Nodup) (ha : a ∈ l) : l.count a = 1 := by
  induction l with
  | nil => cases ha
  | cons b tl ih =>
    rw [List.count_cons]
    rcases List.mem_cons.mp ha with rfl | hmem
    · have hnotin : a ∉ tl := (List.nodup_cons.mp hnd).1
      rw [List.count_eq_zero.mpr hnotin]
      simp
    · have hne : b ≠ a := by
        rintro rfl
        exact (List.nodup_cons.mp hnd).1 hmem
      rw [ih (List.nodup_cons.mp hnd).2 hmem]
      simp [hne]

/-- Inserting under an id that is absent from the map appends a new entry. -/
theorem mapInsert_of_lookup_none (conns : List Connection) (c : Connection)
    (h : mapLookup conns c.id = none) : mapInsert conns c = conns ++ [c] := by
  unfold mapInsert
  rw [if_neg]
  intro hany
  rcases List.any_eq_true.mp hany with ⟨x, hx, hbeq⟩
  unfold mapLookup at h
  exact List.find?_eq_none.mp h x hx hbeq

/-- An id absent from the map does not occur among the mapped ids. -/
theorem not_mem_ids_of_lookup_none (conns : List Connection) (connID : String)
    (h : mapLookup conns connID = none) :
    connID ∉ conns.map Connection.id := by
  intro hmem
  rcases List.mem_map.mp hmem with ⟨x, hx, hid⟩
  unfold mapLookup at h
  exact List.find?_eq_none.mp h x hx (by simp [hid])

/-- Inserting a fresh id preserves duplicate-freeness of the ids. -/
theorem mapInsert_nodup (conns : List Connection) (c : Connection)
    (hnd : (conns.map Connection.id).Nodup)
    (h : mapLookup conns c.id = none) :
    ((mapInsert conns c).map Connection.id).Nodup := by
  rw [mapInsert_of_lookup_none conns c h, List.map_append]
  simp only [List.nodup_append, List.map_cons, List.map_nil]
  exact ⟨hnd, List.nodup_singleton _,
    by simpa using fun hmem => not_mem_ids_of_lookup_none conns c.id h hmem⟩

/-- Deleting preserves duplicate-freeness of the ids. -/
theorem mapDelete_nodup (conns : List Connection) (connID : String)
    (hnd : (conns.map Connection.id).Nodup) :
    ((mapDelete conns connID).map Connection.id).Nodup :=
  List.Nodup.sublist (List.Sublist.map _ (List.filter_sublist _)) hnd

/-- Deleting a present id from a duplicate-free map removes exactly one
entry. -/
theorem mapDelete_length_of_mem (conns : List Connection) (connID : String)
    (hnd : (conns.map Connection.id).Nodup)
    (hm : (mapLookup conns connID).isSome = true) :
    conns.length = (mapDelete conns connID).length + 1 := by
  induction conns with
  | nil => simp [mapLookup, List.find?] at hm
  | cons x tl ih =>
    have hnd' : x.id ∉ tl.map Connection.id ∧ (tl.map Connection.id).Nodup :=
      List.nodup_cons.mp (by simpa using hnd)
    by_cases hx : (x.id == connID) = true
    · have hid : x.id = connID := by simpa using hx
      have htl : mapDelete tl connID = tl := by
        unfold mapDelete
        apply List.filter_eq_self.mpr
        intro y hy
        have hyne : y.id ≠ connID := by
          intro hcontra
          exact hnd'.1 (by
            rw [hid, ← hcontra] at *
            exact List.mem_map_of_mem Connection.id hy)
        simp [hyne]
      have hstep : mapDelete (x :: tl) connID = mapDelete tl connID := by
        unfold mapDelete
        simp [List.filter_cons, hx]
      rw [hstep, htl]
      simp
    · have hm' : (mapLookup tl connID).isSome = true := by
        unfold mapLookup at hm ⊢
        rwa [List.find?_cons_of_neg _ (by simpa using hx)] at hm
      have hstep : mapDelete (x :: tl) connID = x :: mapDelete tl connID := by
        unfold mapDelete
        simp [List.filter_cons, hx]
      rw [hstep]
      simp only [List.length_cons]
      rw [ih hnd'.2 hm']

/-- Deleting one id does not disturb the lookup of a different id. -/
theorem mapLookup_mapDelete_ne (conns : List Connection) (id1 id2 : String)
    (hne : id2 ≠ id1) :
    mapLookup (mapDelete conns id1) id2 = mapLookup conns id2 := by
  induction conns with
  | nil => rfl
  | cons x tl ih =>
    by_cases hx1 : (x.id == id1) = true
    · have hid : x.id = id1 := by simpa using hx1
      have hstep : mapDelete (x :: tl) id1 = mapDelete tl id1 := by
        unfold mapDelete
        simp [List.filter_cons, hx1]
      rw [hstep, ih]
      unfold mapLookup
      rw [List.find?_cons_of_neg _ (by simp [hid]; exact fun h => hne h.symm)]
    · have hstep : mapDelete (x :: tl) id1 = x :: mapDelete tl id1 := by
        unfold mapDelete
        simp [List.filter_cons, hx1]
      rw [hstep]
      unfold mapLookup at ih ⊢
      by_cases hx2 : (x.id == id2) = true
      · simp [List.find?_cons, hx2]
      · simp only [List.find?_cons, hx2]
        exact ih

/-- With stats enabled, a successful `OptimizedAddConnection` increments the
active counter; the capacity error leaves it alone. -/
theorem optimizedAddConnection_active (h : OptimizedHub) (connID : String)
    (wsConn : Option Nat) (metadata : List (String × String)) (now : Nat)
    (hs : h.config.enableStats = true) :
    (optimizedAddConnection h connID wsConn metadata now).1.stats.activeConnections =
      if h.config.maxConnections > 0 ∧
          (h.connections.length : Int) ≥ h.config.maxConnections then
        h.stats.activeConnections
      else h.stats.activeConnections + 1 := by
  by_cases hcap : h.config.maxConnections > 0 ∧
      (h.connections.length : Int) ≥ h.config.maxConnections
  · simp only [optimizedAddConnection, if_pos hcap]
  · simp only [optimizedAddConnection, if_neg hcap, hs]
    simp

/-- With stats enabled, the dispatch-loop cleanup decrements the active
counter. -/
theorem optimizedListenCleanup_active (h : OptimizedHub) (connID : String)
    (hs : h.config.enableStats = true) :
    (optimizedListenCleanup h connID).stats.activeConnections =
      h.stats.activeConnections - 1 := by
  unfold optimizedListenCleanup
  simp [hs]

/-- A cleanup batch of distinct, present ids succeeds and keeps the active
counter equal to the map size (stats enabled, duplicate-free map). -/
theorem processCleanupBatch_invariant (toRemove : List String) :
    ∀ h : OptimizedHub, h.config.enableStats = true →
      (h.connections.map Connection.id).Nodup →
      h.stats.activeConnections = (h.connections.length : Int) →
      toRemove.Nodup →
      (∀ connID ∈ toRemove, (mapLookup h.connections connID).isSome = true) →
      ∃ h', processCleanupBatch h toRemove = some h' ∧
        h'.config = h.config ∧
        (h'.connections.map Connection.id).Nodup ∧
        h'.stats.activeConnections = (h'.connections.length : Int) := by
  induction toRemove with
  | nil =>
    intro h _ hn hi _ _
    exact ⟨h, rfl, rfl, hn, hi⟩
  | cons connID rest ih =>
    intro h hs hn hi hnd hall
    have hmem : (mapLookup h.connections connID).isSome = true :=
      hall connID (List.mem_cons_self _ _)
    obtain ⟨c, hc⟩ := Option.isSome_iff_exists.mp hmem
    have hlen := mapDelete_length_of_mem h.connections connID hn hmem
    have hrec := ih
      { h with
        connections := mapDelete h.connections connID
        stats := { h.stats with
          activeConnections := h.stats.activeConnections - 1 } }
      hs (mapDelete_nodup h.connections connID hn)
      (by
        simp only
        omega)
      ((List.nodup_cons.mp hnd).2)
      (by
        intro id2 hid2
        have hne : id2 ≠ connID := by
          rintro rfl
          exact (List.nodup_cons.mp hnd).1 hid2
        simp only
        rw [mapLookup_mapDelete_ne h.connections connID id2 hne]
        exact hall id2 (List.mem_cons_of_mem _ hid2))
    obtain ⟨h', hp, hcfg, hn', hi'⟩ := hrec
    refine ⟨h', ?_, by rw [hcfg], hn', hi'⟩
    unfold processCleanupBatch
    rw [hc]
    simp only [hs, if_pos]
    exact hp

/-! Claim theorems. -/

/-- C1: the claim states that adding a connection under an id already present
in the map fails with `DuplicateID` and leaves the existing connection (and the
map) unchanged.  The source disagrees: `OptimizedAddConnection` performs no
duplicate check at all.  Evaluated on a hub already holding connection "a"
(transport handle 1), a second add under id "a" succeeds (no error), replaces
the stored connection by the new one (transport handle 2, fresh timestamps)
and inflates `ActiveConnections` to 2 while the map still holds one entry. -/
theorem c1_duplicate_add_overwrites :
    (optimizedAddConnection dupHub "a" (some 2) [] 5).2 = none ∧
    (optimizedAddConnection dupHub "a" (some 2) [] 5).1.connections =
      [{ id := "a", transport := some 2, metadata := [], created := 5,
         lastSeen := 5 }] ∧
    (optimizedAddConnection dupHub "a" (some 2) [] 5).1.stats.activeConnections
      = 2 := by
  decide

/-- C2: capacity enforcement.  For every sequence of add and remove operations
on a hub whose configuration carries a positive `MaxConnections` bound `M`
(and whose map starts within the bound), the connection count never exceeds
`M`, and whenever the count has reached `M` a further `OptimizedAddConnection`
fails with the capacity error.  In particular the `MaxConnections = 2`
scenario holds: adding "a" and "b" succeeds (count 2), adding "c" fails with
the capacity error, and after "a" disconnects (count 1) adding "c" succeeds
(count 2). -/
theorem c2_capacity_enforced (h : OptimizedHub) (ops : List HubOp)
    (h' : OptimizedHub) (M : Int) (hM : 0 < M)
    (hcfg : h.config.maxConnections = M)
    (hlen : (h.connections.length : Int) ≤ M)
    (hrun : runHubOps h ops = some h') :
    ((getConnectionCount h' : Int) ≤ M ∧
      (∀ connID wsConn md now, (getConnectionCount h' : Int) ≥ M →
        (optimizedAddConnection h' connID wsConn md now).2 =
          some AddError.capacityExceeded)) ∧
    ((optimizedAddConnection hub2 "a" (some 1) [] 0).2 = none ∧
      (optimizedAddConnection capS1 "b" (some 2) [] 0).2 = none ∧
      getConnectionCount capS2 = 2 ∧
      (optimizedAddConnection capS2 "c" (some 3) [] 0).2 =
        some AddError.capacityExceeded ∧
      getConnectionCount capS3 = 1 ∧
      (optimizedAddConnection capS3 "c" (some 3) [] 0).2 = none ∧
      getConnectionCount (optimizedAddConnection capS3 "c" (some 3) [] 0).1 = 2) := by
  rcases runHubOps_config_length ops h h' M hM hcfg hlen hrun with ⟨hc, hl⟩
  refine ⟨⟨hl, ?_⟩, by decide⟩
  intro connID wsConn md now hge
  rw [optimizedAddConnection_snd, if_pos]
  refine ⟨?_, ?_⟩
  · rw [hc, hcfg]
    exact hM
  · rw [hc, hcfg]
    exact hge

/-- Witness for C2: filling the `MaxConnections = 2` hub with "a" and "b" puts
the reached state at its capacity bound, where any further add fails with the
capacity error; the longer trace that also overflows and then removes "a"
stays within the bound. -/
theorem c2_capacity_enforced_witness :
    ((getConnectionCount capFull : Int) ≤ 2 ∧
      (optimizedAddConnection capFull "z" none [] 9).2 =
        some AddError.capacityExceeded) ∧
    (getConnectionCount capFinal : Int) ≤ 2 :=
  ⟨⟨(c2_capacity_enforced hub2 opsFill capFull 2 (by decide) (by decide)
        (by decide) (by decide)).1.1,
    (c2_capacity_enforced hub2 opsFill capFull 2 (by decide) (by decide)
        (by decide) (by decide)).1.2 "z" none [] 9 (by decide)⟩,
   (c2_capacity_enforced hub2 opsCap capFinal 2 (by decide) (by decide)
      (by decide) (by decide)).1.1⟩

/-- C3: `OptimizedBroadcastWithFilter` delivers the payload exactly to the
target set.  For a hub whose connection map has (as a Go map guarantees)
pairwise-distinct ids and whose connections all hold a live transport: every
performed send carries the broadcast payload and goes to a connection that is
not excluded and passes the filter (a nil filter passes everything), and every
connection that is not excluded and passes the filter receives exactly one
send. -/
theorem c3_broadcast_filter_targets (h : OptimizedHub) (m : Payload)
    (filter : Option (Connection → Bool)) (exclude : List String)
    (hnd : (h.connections.map Connection.id).Nodup)
    (ht : ∀ c ∈ h.connections, c.transport.isSome = true) :
    (∀ pr ∈ (optimizedBroadcastWithFilter h m filter exclude).2,
      pr.2 = m ∧ ∃ c ∈ h.connections, c.id = pr.1 ∧
        exclude.contains c.id = false ∧ applyFilter filter c = true) ∧
    (∀ c ∈ h.connections, exclude.contains c.id = false →
      applyFilter filter c = true →
      List.count c.id
        ((optimizedBroadcastWithFilter h m filter exclude).2.map Prod.fst)
        = 1) := by
  constructor
  · intro pr hpr
    rw [optimizedBroadcastWithFilter_snd] at hpr
    rcases List.mem_map.mp hpr with ⟨c, hcf, rfl⟩
    rcases List.mem_filter.mp hcf with ⟨hct, -⟩
    rcases List.mem_filter.mp hct with ⟨hcm, hpred⟩
    simp only [Bool.and_eq_true] at hpred
    rcases hpred with ⟨hnotex, hfl⟩
    exact ⟨rfl, c, hcm, rfl, by simpa using hnotex, hfl⟩
  · intro c hcm hex hfl
    rw [optimizedBroadcastWithFilter_snd]
    unfold broadcastTargets
    rw [List.filter_filter, List.map_map]
    have hmapeq :
        (Prod.fst ∘ fun c : Connection => (c.id, m)) = Connection.id := rfl
    rw [hmapeq]
    have hP : (c.transport.isSome &&
        (!(exclude.contains c.id) && applyFilter filter c)) = true := by
      rw [ht c hcm, hfl, hex]
      rfl
    have hsub : ((h.connections.filter fun a =>
          a.transport.isSome &&
            (!(exclude.contains a.id) && applyFilter filter a)).map
          Connection.id).Sublist (h.connections.map Connection.id) :=
      List.Sublist.map _ (List.filter_sublist _)
    have hnd' := List.Nodup.sublist hsub hnd
    have hmem : c.id ∈ (h.connections.filter fun a =>
        a.transport.isSome &&
          (!(exclude.contains a.id) && applyFilter filter a)).map
        Connection.id :=
      List.mem_map_of_mem _ (List.mem_filter.mpr ⟨hcm, hP⟩)
    exact count_eq_one_of_nodup_mem _ _ hnd' hmem

/-- Witness for C3: on the hub holding connections "a", "b", "c", broadcasting
`[7]` with the filter rejecting "c" and the exclude list `["b"]` sends exactly
one copy to "a", and every send in that broadcast goes to a non-excluded,
filter-passing connection. -/
theorem c3_broadcast_filter_targets_witness :
    List.count "a" ((optimizedBroadcastWithFilter hub3 [7]
        (some fun c => !(c.id == "c")) ["b"]).2.map Prod.fst) = 1 :=
  (c3_broadcast_filter_targets hub3 [7] (some fun c => !(c.id == "c")) ["b"]
      (by decide) (by decide)).2 connA (by decide) (by decide) (by decide)

/-- C4: `OptimizedBroadcast` is a non-blocking enqueue onto the fixed-capacity
broadcast queue: with free capacity the payload is appended at the tail
(preserving FIFO order of the queued payloads) and nothing is dropped; with a
full queue the payload is dropped with a warning and the hub is unchanged; in
both cases the call returns at once, and a queue within capacity stays within
capacity. -/
theorem c4_broadcast_enqueue (h : OptimizedHub) (m : Payload) :
    (h.broadcastQueue.length < h.broadcastCapacity →
      (optimizedBroadcast h m).1.broadcastQueue = h.broadcastQueue ++ [m] ∧
      (optimizedBroadcast h m).2 = false) ∧
    (h.broadcastCapacity ≤ h.broadcastQueue.length →
      (optimizedBroadcast h m).1 = h ∧ (optimizedBroadcast h m).2 = true) ∧
    (h.broadcastQueue.length ≤ h.broadcastCapacity →
      (optimizedBroadcast h m).1.broadcastQueue.length ≤ h.broadcastCapacity) := by
  unfold optimizedBroadcast
  by_cases hlt : h.broadcastQueue.length < h.broadcastCapacity
  · refine ⟨fun _ => by simp [hlt], fun hge => absurd hlt (by omega), fun _ => ?_⟩
    simp only [if_pos hlt, List.length_append, List.length_cons,
      List.length_nil]
    omega
  · exact ⟨fun hc => absurd hc hlt, fun _ => by simp [hlt],
      fun _ => by simp [hlt]; omega⟩

/-- Witness for C4: on a fresh hub (queue empty, capacity 1000) the payload
`[7]` is appended; on a hub whose queue is at capacity the payload is dropped
and the hub unchanged. -/
theorem c4_broadcast_enqueue_witness :
    ((optimizedBroadcast newOptimizedHub [7]).1.broadcastQueue =
        newOptimizedHub.broadcastQueue ++ [[7]] ∧
      (optimizedBroadcast newOptimizedHub [7]).2 = false) ∧
    ((optimizedBroadcast fullHub [7]).1 = fullHub ∧
      (optimizedBroadcast fullHub [7]).2 = true) :=
  ⟨(c4_broadcast_enqueue newOptimizedHub [7]).1 (by decide),
   (c4_broadcast_enqueue fullHub [7]).2.1 (by decide)⟩

/-- C5: for a data frame handled by the dispatch loop, if `MaxMessageSize > 0`
and the payload length exceeds it, the frame is dropped: it is counted as
oversized, never delivered to the message handler, the connection is untouched
and the loop keeps running; otherwise `lastSeen` is updated to the receive
instant and the handler is invoked with `(id, payload)`. -/
theorem c5_dispatch_size_limit (mms now : Nat) (c : Connection) (p : Payload) :
    (0 < mms → mms < p.length →
      dispatchDataFrame mms now c p =
        { conn := c, delivered := none, oversizedDropped := true,
          loopContinues := true }) ∧
    (p.length ≤ mms ∨ mms = 0 →
      dispatchDataFrame mms now c p =
        { conn := { c with lastSeen := now }, delivered := some (c.id, p),
          oversizedDropped := false, loopContinues := true }) := by
  unfold dispatchDataFrame
  constructor
  · intro h1 h2
    rw [if_pos ⟨h1, h2⟩]
  · intro hsmall
    rw [if_neg]
    rintro ⟨hpos, hgt⟩
    rcases hsmall with hle | hzero
    · omega
    · omega

/-- Witness for C5: with `MaxMessageSize = 10`, a 20-byte frame is dropped
undelivered while a 5-byte frame updates `lastSeen` and reaches the handler. -/
theorem c5_dispatch_size_limit_witness :
    (dispatchDataFrame 10 9 connA (List.replicate 20 0) =
      { conn := connA, delivered := none, oversizedDropped := true,
        loopContinues := true }) ∧
    (dispatchDataFrame 10 9 connA (List.replicate 5 0) =
      { conn := { connA with lastSeen := 9 },
        delivered := some (connA.id, List.replicate 5 0),
        oversizedDropped := false, loopContinues := true }) :=
  ⟨(c5_dispatch_size_limit 10 9 connA (List.replicate 20 0)).1 (by decide)
      (by decide),
   (c5_dispatch_size_limit 10 9 connA (List.replicate 5 0)).2
      (Or.inl (by decide))⟩

/-- C6 counterexample: the claim states that a panicking message handler never
kills the receive loop that invoked it, for the Hub's dispatch loop as well as
the client's listen loop.  The Hub's `optimizedListenConnection` calls the
handler inline with no `recover`: on the concrete hub holding connection "a",
a panicking handler terminates the dispatch loop (the deferred cleanup removes
the connection on the way out). -/
theorem c6_hub_dispatch_panic_counterexample :
    (optimizedDispatchTextFrame dupHub "a" HandlerOutcome.panics 5).2 = false := by
  decide

/-- C6 amended: the client's listen loop dispatches each message handler on its
own goroutine with panic recovery, so the loop survives every handler outcome
(the message is counted and a panic only bumps the panic metric); the Hub's
optimized dispatch loop, by contrast, invokes the handler inline without
recovery: a normal handler leaves the loop running, a panicking one terminates
it, its deferred cleanup removing the connection from the map. -/
theorem c6_panic_recovery_amended (s : ClientListenState) (o : HandlerOutcome)
    (h : OptimizedHub) (connID : String) (now : Nat) :
    (clientListenStep s o).loopAlive = s.loopAlive ∧
    (clientListenStep s o).messageCount = s.messageCount + 1 ∧
    (clientListenStep s HandlerOutcome.panics).panicMetric = s.panicMetric + 1 ∧
    (optimizedDispatchTextFrame h connID HandlerOutcome.normal now).2 = true ∧
    (optimizedDispatchTextFrame h connID HandlerOutcome.panics now).2 = false ∧
    mapLookup
      (optimizedDispatchTextFrame h connID HandlerOutcome.panics now).1.connections
      connID = none := by
  refine ⟨rfl, rfl, rfl, rfl, rfl, ?_⟩
  show mapLookup (optimizedListenCleanup _ connID).connections connID = none
  rw [optimizedListenCleanup_connections]
  exact mapLookup_mapDelete_self _ connID

/-- C8 counterexample: the claim states that with `MaxRetries = 3` and an
unreachable target the client performs exactly 3 failed connect attempts and
ends permanently closed with `GetRetryCount() == 3`.  Running the reconnect
machinery from a freshly disconnected state (retryCount 0) with four available
dial opportunities, all failing, gives instead: one single attempt, retryCount
1, and the permanently-closed branch never taken. -/
theorem c8_retry_counterexample :
    reconnectRun 3 (List.replicate 4 false)
        { retryCount := 0, permanentlyClosed := false, attempts := 0 } =
      { retryCount := 1, permanentlyClosed := false, attempts := 1 } ∧
    ¬ ((reconnectRun 3 (List.replicate 4 false)
          { retryCount := 0, permanentlyClosed := false, attempts := 0 }).attempts
            = 3 ∧
       (reconnectRun 3 (List.replicate 4 false)
          { retryCount := 0, permanentlyClosed := false, attempts := 0 }).permanentlyClosed
            = true ∧
       (reconnectRun 3 (List.replicate 4 false)
          { retryCount := 0, permanentlyClosed := false, attempts := 0 }).retryCount
            = 3) := by
  decide

/-- C7: `RateLimiter.Allow` semantics for any id.  With no gate installed the
call always returns true and leaves the limiter unchanged.  With a gate of
interval `d` installed (created at `start`, channel last drained at
`emptiedAt`, consulted at a later instant `now`): after a successful call the
current interval window extends beyond the call instant and every repeated
call inside it returns false; a call one full interval after the success
returns true again; and over any sequence of calls the number of successes is
bounded by the number of whole intervals elapsed since the gate was installed
— at most one `true` per elapsed interval.  `Allow` is a total function of the
call instant — a non-blocking check. -/
theorem c7_allow_per_interval (rl : RateLimiter) (connID : String) :
    (rl.limits.find? (fun p => p.1 == connID) = none →
      ∀ now, allow rl connID now = (true, rl)) ∧
    (∀ g now, rl.limits.find? (fun p => p.1 == connID) = some (connID, g) →
      0 < g.interval → g.start ≤ g.emptiedAt → g.emptiedAt ≤ now →
      (allow rl connID now).1 = true →
      now < nextTick { g with emptiedAt := now } ∧
      (∀ t, now ≤ t → t < nextTick { g with emptiedAt := now } →
        (allow (allow rl connID now).2 connID t).1 = false) ∧
      (∀ t, now + g.interval ≤ t →
        (allow (allow rl connID now).2 connID t).1 = true)) ∧
    (∀ g times T, rl.limits.find? (fun p => p.1 == connID) = some (connID, g) →
      0 < g.interval → g.start ≤ g.emptiedAt → g.emptiedAt ≤ T →
      (∀ t ∈ times, t ≤ T) →
      (allowTrace rl connID times).1 ≤ (T - g.start) / g.interval) := by
  refine ⟨?_, ?_, ?_⟩
  · intro hf now
    unfold allow
    rw [hf]
  · intro g now hf hd hse hen hsucc
    have hok : nextTick g ≤ now := by
      rw [allow_fst_of_find? rl connID g now hf, tickerAllow_fst] at hsucc
      exact of_decide_eq_true hsucc
    have hsnow : g.start ≤ now := le_trans hse hen
    have h2 : (allow rl connID now).2 =
        updateGate rl connID { g with emptiedAt := now } := by
      rw [allow_snd_of_find? rl connID g now hf, tickerAllow_snd_of_le g now hok,
        tickerAllow_fst, decide_eq_true hok]
      rfl
    have hf' : ((allow rl connID now).2).limits.find? (fun p => p.1 == connID) =
        some (connID, { g with emptiedAt := now }) := by
      rw [h2]
      exact find?_updateGate rl connID g _ hf
    refine ⟨lt_nextTick g.start g.interval now hd hsnow, ?_, ?_⟩
    · intro t _ hlt
      rw [allow_fst_of_find? _ connID _ t hf', tickerAllow_fst]
      exact decide_eq_false (by omega)
    · intro t ht
      rw [allow_fst_of_find? _ connID _ t hf', tickerAllow_fst]
      have hnt := nextTick_le g.start g.interval now hsnow
      exact decide_eq_true (by omega)
  · intro g times T hf hd hse heT hts
    have hcount := allow_count_le connID times rl g 0 T hf hd hse heT hts
    unfold allowTrace
    exact le_trans (Nat.le_add_right _ _) (by simpa using hcount)

/-- Witness for C7: on the limiter with a gate of interval 2 installed for "a"
at time 0, an ungated id is always allowed, a success at time 2 is followed by
a failure at time 3 and a success at time 4, and six calls up to time 4 yield
at most two successes. -/
theorem c7_allow_per_interval_witness :
    allow rlFix "b" 5 = (true, rlFix) ∧
    (allow (allow rlFix "a" 2).2 "a" 3).1 = false ∧
    (allow (allow rlFix "a" 2).2 "a" 4).1 = true ∧
    (allowTrace rlFix "a" [0, 1, 2, 2, 3, 4]).1 ≤ (4 - 0) / 2 := by
  have ha := c7_allow_per_interval rlFix "a"
  have hb := c7_allow_per_interval rlFix "b"
  have hpart2 := ha.2.1 { start := 0, interval := 2, emptiedAt := 0 } 2
    (by decide) (by decide) (by decide) (by decide) (by decide)
  exact ⟨hb.1 (by decide) 5,
    hpart2.2.1 3 (by decide) (by decide),
    hpart2.2.2 4 (by decide),
    ha.2.2 { start := 0, interval := 2, emptiedAt := 0 } [0, 1, 2, 2, 3, 4] 4
      (by decide) (by decide) (by decide) (by decide) (by decide)⟩

/-- C10: immediately after `SetLimit(id, interval)` installs or replaces a
gate, `Allow(id)` returns false at every instant strictly before one full
interval has elapsed since the installation — the gate starts closed, with no
initial permit — and returns true once one full interval has elapsed. -/
theorem c10_gate_starts_closed (rl : RateLimiter) (connID : String)
    (d now t : Nat) :
    (t < now + d → (allow (setLimit rl connID d now) connID t).1 = false) ∧
    (now + d ≤ t → (allow (setLimit rl connID d now) connID t).1 = true) := by
  have hf := find?_setLimit rl connID d now
  have hfst := allow_fst_of_find? _ connID _ t hf
  constructor
  · intro hlt
    rw [hfst, tickerAllow_fst, nextTick_fresh]
    exact decide_eq_false (by omega)
  · intro hge
    rw [hfst, tickerAllow_fst, nextTick_fresh]
    exact decide_eq_true hge

/-- Witness for C10: a gate of interval 2 installed at time 0 refuses the
first call at time 1 and grants a call at time 2. -/
theorem c10_gate_starts_closed_witness :
    (allow (setLimit { limits := [] } "a" 2 0) "a" 1).1 = false ∧
    (allow (setLimit { limits := [] } "a" 2 0) "a" 2).1 = true :=
  ⟨(c10_gate_starts_closed { limits := [] } "a" 2 0 1).1 (by decide),
   (c10_gate_starts_closed { limits := [] } "a" 2 0 2).2 (by decide)⟩

/-- C8 amended: after a disconnection, a client whose target is unreachable
performs exactly one internal connect attempt — the single delayed reconnect
scheduled by the listen loop's cleanup — which fails and halts the retry
machinery: `GetRetryCount() == 1`, the permanently-closed branch is never
taken, and no second (a fortiori no fourth) internal attempt occurs, whatever
`MaxRetries` is and however many further dial opportunities the network would
offer. -/
theorem c8_single_reconnect_attempt (maxRetries : Nat) (rest : List Bool) :
    reconnectRun maxRetries (false :: rest)
        { retryCount := 0, permanentlyClosed := false, attempts := 0 } =
      { retryCount := 1, permanentlyClosed := false, attempts := 1 } := by
  unfold reconnectRun
  rw [if_pos (shouldRetry_zero maxRetries)]
  rfl

/-- C9 counterexample: the claim states that with stats enabled the
`ActiveConnections` counter matches the number of map entries after every
completed sequential Hub operation.  Two sequential `OptimizedAddConnection`
calls under the same id "a" (stats enabled by the default configuration) leave
one map entry but a counter of 2: the overwrite path increments the counter
without growing the map. -/
theorem c9_stats_counter_counterexample :
    ((optimizedAddConnection
        (optimizedAddConnection newOptimizedHub "a" (some 1) [] 0).1
        "a" (some 2) [] 1).1.stats.activeConnections = 2) ∧
    ((optimizedAddConnection
        (optimizedAddConnection newOptimizedHub "a" (some 1) [] 0).1
        "a" (some 2) [] 1).1.connections.length = 1) ∧
    ¬ ((optimizedAddConnection
        (optimizedAddConnection newOptimizedHub "a" (some 1) [] 0).1
        "a" (some 2) [] 1).1.stats.activeConnections =
      ((optimizedAddConnection
        (optimizedAddConnection newOptimizedHub "a" (some 1) [] 0).1
        "a" (some 2) [] 1).1.connections.length : Int)) := by
  decide

/-- C9 amended: with stats enabled and a duplicate-free map whose
`ActiveConnections` counter matches its size, the counter stays equal to the
map size after every completed operation of any sequence in which each add
uses an id not currently present, each dispatch-loop exit removes a present
connection, and each cleanup batch removes distinct present ids — the
operations that sequential executions of the source produce when no id is
added twice or removed twice. -/
theorem c9_stats_counter_invariant (ops : List HubOp) :
    ∀ h : OptimizedHub, h.config.enableStats = true →
      (h.connections.map Connection.id).Nodup →
      h.stats.activeConnections = (h.connections.length : Int) →
      validOps h ops = true →
      ∃ h', runHubOps h ops = some h' ∧
        h'.stats.activeConnections = (h'.connections.length : Int) := by
  induction ops with
  | nil =>
    intro h _ _ hi _
    exact ⟨h, rfl, hi⟩
  | cons op rest ih =>
    intro h hs hn hi hval
    unfold validOps at hval
    simp only [Bool.and_eq_true] at hval
    obtain ⟨hop, hrest⟩ := hval
    cases happ : applyHubOp h op with
    | none =>
      rw [happ] at hrest
      cases hrest
    | some h1 =>
      rw [happ] at hrest
      have hstep : h1.config.enableStats = true ∧
          (h1.connections.map Connection.id).Nodup ∧
          h1.stats.activeConnections = (h1.connections.length : Int) := by
        cases op with
        | add connID wsConn md now =>
          simp only [validOp, Option.isNone_iff_eq_none] at hop
          cases happ
          refine ⟨by rw [optimizedAddConnection_config]; exact hs, ?_, ?_⟩
          · rw [optimizedAddConnection_connections]
            by_cases hcap : h.config.maxConnections > 0 ∧
                (h.connections.length : Int) ≥ h.config.maxConnections
            · rw [if_pos hcap]
              exact hn
            · rw [if_neg hcap]
              exact mapInsert_nodup h.connections _ hn hop
          · rw [optimizedAddConnection_active h connID wsConn md now hs,
              optimizedAddConnection_connections]
            by_cases hcap : h.config.maxConnections > 0 ∧
                (h.connections.length : Int) ≥ h.config.maxConnections
            · rw [if_pos hcap, if_pos hcap]
              exact hi
            · rw [if_neg hcap, if_neg hcap,
                mapInsert_of_lookup_none h.connections _ hop]
              simp only [List.length_append, List.length_cons, List.length_nil]
              omega
        | disconnect connID =>
          simp only [validOp] at hop
          cases happ
          have hlen := mapDelete_length_of_mem h.connections connID hn hop
          refine ⟨by rw [optimizedListenCleanup_config]; exact hs, ?_, ?_⟩
          · rw [optimizedListenCleanup_connections]
            exact mapDelete_nodup h.connections connID hn
          · rw [optimizedListenCleanup_active h connID hs,
              optimizedListenCleanup_connections]
            omega
        | cleanup toRemove =>
          simp only [validOp, Bool.and_eq_true, decide_eq_true_eq,
            List.all_eq_true] at hop
          have hp : processCleanupBatch h toRemove = some h1 := happ
          obtain ⟨h'', hp', hcfg', hn', hi'⟩ :=
            processCleanupBatch_invariant toRemove h hs hn hi hop.1 hop.2
          rw [hp] at hp'
          cases hp'
          exact ⟨by rw [hcfg']; exact hs, hn', hi'⟩
      obtain ⟨hs1, hn1, hi1⟩ := hstep
      obtain ⟨h', hrun, hinv⟩ := ih h1 hs1 hn1 hi1 hrest
      refine ⟨h', ?_, hinv⟩
      unfold runHubOps
      rw [happ]
      exact hrun

/-- Witness for C9: the valid trace adding "a" and "b", then removing "a" via
a dispatch-loop exit and "b" via a cleanup batch, runs to completion with the
counter matching the (empty) map. -/
theorem c9_stats_counter_invariant_witness :
    ∃ h', runHubOps newOptimizedHub opsStats = some h' ∧
      h'.stats.activeConnections = (h'.connections.length : Int) :=
  c9_stats_counter_invariant opsStats newOptimizedHub (by decide) (by decide)
    (by decide) (by decide)

end WS
